import Mathlib

/-!
Verification of the askrene route-oracle plugin
(`src/plugins/askrene/askrene.c`).

The development shallowly embeds the data model and the operations of the
plugin: machine integers become `Nat` with explicit u64 bounds where overflow
matters, fallible operations return `Option`, and the JSON command handlers
become pure functions from a plugin state to a (result, new state) pair.
Support modules of the repository that are not part of the given source
(`layer.c`, `reserve.c`, `common/fp16`, `common/amount`, `common/gossmap`) are
modelled from the specification's description of them; each such definition
carries a doc comment saying so.
-/

namespace Askrene

/-- Largest value of a C `u64`. -/
def U64MAX : Nat := 2 ^ 64 - 1

/-- Modelled from the spec: `amount_sat_to_msat` from `common/amount`.
Converts satoshis to millisatoshis, failing when the product would overflow
a u64 (the spec's "local channel with unrepresentable capacity" warning). -/
def amount_sat_to_msat (sat : Nat) : Option Nat :=
  if sat * 1000 ≤ U64MAX then some (sat * 1000) else none

/-- Modelled from the spec: `amount_msat_sub` from `common/amount`: subtraction
of msat amounts reporting underflow (`none`) instead of wrapping. -/
def amount_msat_sub (a b : Nat) : Option Nat :=
  if b ≤ a then some (a - b) else none

/-- The pattern `if (!amount_msat_sub(x, x, r)) x = 0;` used by
`get_constraints`: saturating subtraction clamping to zero. -/
def msat_sub_sat (a b : Nat) : Nat :=
  match amount_msat_sub a b with
  | some r => r
  | none => 0

/-- Number of significant bits of `n`, computed with explicit fuel so that the
definition is structurally recursive (64 units of fuel suffice for any u64). -/
def nbitsFuel : Nat → Nat → Nat
  | 0, _ => 0
  | fuel + 1, n => if n = 0 then 0 else nbitsFuel fuel (n / 2) + 1

/-- Number of significant bits of a u64. -/
def nbits (n : Nat) : Nat := nbitsFuel 64 n

/-- Modelled from the spec: `fp16_to_u64` from `common/fp16`. The spec
describes fp16 as a "16-bit compressed float"; we model it with an 11-bit
mantissa (low bits) and a 5-bit exponent (high bits):
`value = mantissa << exponent`. -/
def fp16_to_u64 (v : Nat) : Nat := (v % 2048) * 2 ^ (v / 2048)

/-- Modelled from the spec: `u64_to_fp16` with round-up from `common/fp16`,
as used by `get_capacities`. Compression is lossy but monotone: values whose
significant bits fit in the 11-bit mantissa are kept exactly, larger values
are rounded up to the next representable value, and values too large for the
5-bit exponent are clamped to the largest representable one. -/
def u64_to_fp16 (val : Nat) : Nat :=
  if val = 0 then 0
  else if nbits val ≤ 11 then val
  else
    let e := nbits val - 11
    let m := val / 2 ^ e
    let m1 := if m * 2 ^ e < val then m + 1 else m
    let e2 := if m1 = 2048 then e + 1 else e
    let m2 := if m1 = 2048 then 1024 else m1
    if 32 ≤ e2 then 31 * 2048 + 2047
    else e2 * 2048 + m2

/-- A directed channel identifier: `struct short_channel_id_dir`. -/
structure ShortChannelIdDir where
  scid : Nat
  dir : Nat
deriving DecidableEq, Repr

/-- Association-list lookup, used to model the hash tables of `layer.c`
and `reserve.c`. -/
def assoc_find {α β : Type} [DecidableEq α] : List (α × β) → α → Option β
  | [], _ => none
  | (k, v) :: rest, k' => if k = k' then some v else assoc_find rest k'

/-- Insert-or-replace in an association list (the spec's "insert or replace
the (kind) entry"). -/
def assoc_update {α β : Type} [DecidableEq α] (xs : List (α × β)) (k : α) (v : β) :
    List (α × β) :=
  if xs.any (fun p => p.1 = k) then
    xs.map (fun p => if p.1 = k then (k, v) else p)
  else xs ++ [(k, v)]

/-- A liquidity constraint carried by a layer (`struct constraint` without the
kind, which is encoded by which field of the layer holds it). -/
structure Constraint where
  limit : Nat
  timestamp : Nat
deriving DecidableEq, Repr

/-- Node identifier (abstractly a 33-byte public key; modelled as `Nat`). -/
abbrev NodeId : Type := Nat

/-- Modelled from the spec: a layer-declared local channel (full channel
description injected into a query's overlay). -/
structure LocalChannel where
  src : NodeId
  dst : NodeId
  capacity : Nat
  htlc_min : Nat
  htlc_max : Nat
  base_fee : Nat
  prop_fee : Nat
  delay : Nat
deriving DecidableEq, Repr

/-- Modelled from the spec: a layer (`layer.c`): named overlay carrying
local-channel declarations, per-(scid,dir) MIN and MAX constraints, and a
disabled-node list. At most one MIN and one MAX per scidd (association lists
keyed by scidd). -/
structure Layer where
  name : String
  minCs : List (ShortChannelIdDir × Constraint)
  maxCs : List (ShortChannelIdDir × Constraint)
  localChans : List (Nat × LocalChannel)
  disabled : List NodeId
deriving DecidableEq, Repr

/-- Constraint kind (`CONSTRAINT_MIN` / `CONSTRAINT_MAX`). -/
inductive ConstraintKind where
  | min
  | max
deriving DecidableEq, Repr

/-- Modelled from the spec: `layer_find_constraint` from `layer.c`:
`find_constraint(scidd, kind) → Option<&Constraint>`. -/
def layer_find_constraint (l : Layer) (scidd : ShortChannelIdDir)
    (kind : ConstraintKind) : Option Constraint :=
  match kind with
  | .min => assoc_find l.minCs scidd
  | .max => assoc_find l.maxCs scidd

/-- Modelled from the spec: a reservation record (`struct reserve`):
accumulated amount plus the number of contributing HTLCs. -/
structure Reserve where
  amount : Nat
  num_htlcs : Nat
deriving DecidableEq, Repr

/-- The reservation table, keyed by (scid, dir). -/
abbrev ReserveTable : Type := List (ShortChannelIdDir × Reserve)

/-- Modelled from the spec: `find_reserve` from `reserve.c`:
`find(scidd) → Option<Reservation>`. -/
def find_reserve (t : ReserveTable) (scidd : ShortChannelIdDir) : Option Reserve :=
  assoc_find t scidd

/-- A channel of the public graph, as `get_constraints` sees it through the
gossmap accessors: its dense index (`gossmap_chan_idx`), its scid
(`gossmap_chan_scid`) and its on-chain capacity in satoshis
(`gossmap_chan_get_capacity`; `none` models the accessor failing). -/
structure GossChan where
  idx : Nat
  scid : Nat
  capacity : Option Nat
deriving DecidableEq, Repr

/-- The per-query context `struct route_query`: the private capacity cache
(fp16 entries, indexed by channel index), the selected layers in caller
order, and the reservation table. -/
structure RouteQuery where
  capacities : List Nat
  layers : List Layer
  reserved : ReserveTable
deriving DecidableEq

/-- One MIN update of the layer fold: `if (cmin && cmin->limit > *min)
*min = cmin->limit`. -/
def min_step (o : Option Constraint) (x : Nat) : Nat :=
  match o with
  | some c => if x < c.limit then c.limit else x
  | none => x

/-- One MAX update of the layer fold: `if (cmax && cmax->limit < *max)
*max = cmax->limit`. -/
def max_step (o : Option Constraint) (x : Nat) : Nat :=
  match o with
  | some c => if c.limit < x then c.limit else x
  | none => x

/-- One iteration of the layer fold of `get_constraints` (askrene.c lines
251-259). -/
def fold_step (scidd : ShortChannelIdDir) (mm : Nat × Nat) (l : Layer) : Nat × Nat :=
  (min_step (layer_find_constraint l scidd .min) mm.1,
   max_step (layer_find_constraint l scidd .max) mm.2)

/-- The layer fold of `get_constraints` (askrene.c lines 250-259): starting
from min = 0 and max = u64 max, each selected layer in order raises min to a
larger MIN limit and lowers max to a smaller MAX limit. -/
def layer_fold (layers : List Layer) (scidd : ShortChannelIdDir) : Nat × Nat :=
  layers.foldl (fold_step scidd) (0, U64MAX)

/-- The MIN-constraint limits a list of layers carries for a scidd, in layer
order. -/
def minLimits (layers : List Layer) (scidd : ShortChannelIdDir) : List Nat :=
  layers.filterMap (fun l => (layer_find_constraint l scidd .min).map Constraint.limit)

/-- The MAX-constraint limits a list of layers carries for a scidd, in layer
order. -/
def maxLimits (layers : List Layer) (scidd : ShortChannelIdDir) : List Nat :=
  layers.filterMap (fun l => (layer_find_constraint l scidd .max).map Constraint.limit)

/-- Whether `get_constraints` takes the fast path for this channel:
`idx < tal_count(rq->capacities) && rq->capacities[idx] != 0`. -/
def fast_path (rq : RouteQuery) (chan : GossChan) : Prop :=
  chan.idx < rq.capacities.length ∧ rq.capacities.getD chan.idx 0 ≠ 0

instance (rq : RouteQuery) (chan : GossChan) : Decidable (fast_path rq chan) :=
  inferInstanceAs (Decidable (_ ∧ _))

/-- `get_constraints` (askrene.c lines 227-289): effective `[min, max]` msat
window for a directed channel. Fast path through the fp16 cache; otherwise a
fold over the selected layers, a capacity fallback when max is still the u64
sentinel, and finally saturating subtraction of any reservation. -/
def get_constraints (rq : RouteQuery) (chan : GossChan) (dir : Nat) : Nat × Nat :=
  if fast_path rq chan then
    (0, fp16_to_u64 (rq.capacities.getD chan.idx 0) * 1000)
  else
    let scidd : ShortChannelIdDir := ⟨chan.scid, dir⟩
    let mm := layer_fold rq.layers scidd
    let max2 :=
      if mm.2 = U64MAX then
        match chan.capacity with
        | some cap =>
          match amount_sat_to_msat cap with
          | some m => m
          | none => U64MAX
        | none => U64MAX
      else mm.2
    match find_reserve rq.reserved scidd with
    | some r => (msat_sub_sat mm.1 r.amount, msat_sub_sat max2 r.amount)
    | none => (mm.1, max2)

/-! ### Reservation table mutations (`reserve.c`, modelled from the spec) -/

/-- Modelled from the spec: adding one reservation entry. The amount
accumulates into any existing record for the scidd and `num_htlcs` is
incremented; `none` signals overflow (summed amount would exceed u64). -/
def reserve_add_one (t : ReserveTable) (scidd : ShortChannelIdDir) (amount : Nat) :
    Option ReserveTable :=
  match find_reserve t scidd with
  | some r =>
    if r.amount + amount ≤ U64MAX then
      some (assoc_update t scidd ⟨r.amount + amount, r.num_htlcs + 1⟩)
    else none
  | none =>
    if amount ≤ U64MAX then some (assoc_update t scidd ⟨amount, 1⟩)
    else none

/-- Modelled from the spec: `reserves_add` from `reserve.c`: attempts the
path's entries in order, stopping at the first overflow; returns how many
entries were applied together with the (possibly partially) updated table. -/
def reserves_add (t : ReserveTable) : List (ShortChannelIdDir × Nat) → Nat × ReserveTable
  | [] => (0, t)
  | (s, a) :: rest =>
    match reserve_add_one t s a with
    | none => (0, t)
    | some t1 =>
      let r := reserves_add t1 rest
      (r.1 + 1, r.2)

/-- Diagnostic produced by the reserve command on partial failure: the
failing index, its scidd and requested amount, and the amount already
reserved there (`none` renders as "none" in the C format string). -/
structure ReserveDiag where
  index : Nat
  scidd : ShortChannelIdDir
  amount : Nat
  already : Option Nat
deriving DecidableEq, Repr

/-- `json_askrene_reserve` (askrene.c lines 335-363): run `reserves_add` over
the whole path; if fewer entries than the path length were applied, the whole
command fails with a diagnostic naming the failing scidd, the requested
amount, and the amount already reserved there (looked up in the
partially-updated table, as the C code does). -/
def json_askrene_reserve (t : ReserveTable) (path : List (ShortChannelIdDir × Nat)) :
    Option ReserveDiag × ReserveTable :=
  let r := reserves_add t path
  if r.1 = path.length then (none, r.2)
  else
    let e := path.getD r.1 (⟨0, 0⟩, 0)
    (some ⟨r.1, e.1, e.2, (find_reserve r.2 e.1).map Reserve.amount⟩, r.2)

/-! ### Layers and the layer commands -/

/-- A fresh, empty layer (what `new_layer` creates). -/
def empty_layer (name : String) : Layer :=
  { name := name, minCs := [], maxCs := [], localChans := [], disabled := [] }

/-- The public channel graph as the plugin observes it: the channel list (in
dense-index order) plus the overlay's disabled-node effects. -/
structure Graph where
  chans : List GossChan
  disabled : List NodeId
deriving DecidableEq, Repr

/-- The plugin state `struct askrene`: gossmap, shared capacity cache,
reservation table and layer list. -/
structure AskreneState where
  gossmap : Graph
  capacities : List Nat
  reserved : ReserveTable
  layers : List Layer

/-- `find_layer`: look a layer up by name. -/
def find_layer (st : AskreneState) (name : String) : Option Layer :=
  st.layers.find? (fun l => l.name == name)

/-- Write a layer back into the store: replace the layer of the same name, or
append it when absent (lazy creation). -/
def upsert_layer (st : AskreneState) (l : Layer) : AskreneState :=
  if st.layers.any (fun x => x.name == l.name) then
    { st with layers := st.layers.map (fun x => if x.name == l.name then l else x) }
  else { st with layers := st.layers ++ [l] }

/-- Modelled from the spec: `layer_find_local_channel` from `layer.c`. -/
def layer_find_local_channel (l : Layer) (scid : Nat) : Option LocalChannel :=
  assoc_find l.localChans scid

/-- Modelled from the spec: `layer_check_local_channel` from `layer.c`:
structural match of an existing local channel against a request's endpoints
and capacity. -/
def layer_check_local_channel (lc : LocalChannel) (src dst : NodeId) (capacity : Nat) :
    Bool :=
  lc.src = src && lc.dst = dst && lc.capacity = capacity

/-- Modelled from the spec: `layer_update_local_channel` from `layer.c`:
insert or replace the local channel for this scid. -/
def layer_update_local_channel (l : Layer) (src dst : NodeId) (scid : Nat)
    (capacity base_fee prop_fee delay htlc_min htlc_max : Nat) : Layer :=
  let lc : LocalChannel :=
    ⟨src, dst, capacity, htlc_min, htlc_max, base_fee, prop_fee, delay⟩
  { l with localChans := assoc_update l.localChans scid lc }

/-- Modelled from the spec: `layer_update_constraint` from `layer.c`: insert
or replace the constraint of the given kind for the scidd, refreshing its
timestamp. -/
def layer_update_constraint (l : Layer) (scidd : ShortChannelIdDir)
    (kind : ConstraintKind) (timestamp limit : Nat) : Layer × Constraint :=
  let c : Constraint := ⟨limit, timestamp⟩
  match kind with
  | .min => ({ l with minCs := assoc_update l.minCs scidd c }, c)
  | .max => ({ l with maxCs := assoc_update l.maxCs scidd c }, c)

/-- `json_askrene_inform_channel` (askrene.c lines 451-500): fails unless
exactly one of minimum_msat/maximum_msat is given; otherwise lazily creates
the layer and inserts or replaces the constraint of the corresponding kind,
returning it. -/
def json_askrene_inform_channel (st : AskreneState) (layername : String)
    (scid dir : Nat) (minimum maximum : Option Nat) (now : Nat) :
    Option String × AskreneState × Option Constraint :=
  if (minimum.isNone && maximum.isNone) || (minimum.isSome && maximum.isSome) then
    (some "Must specify exactly one of maximum_msat/minimum_msat", st, none)
  else
    let l0 := (find_layer st layername).getD (empty_layer layername)
    let scidd : ShortChannelIdDir := ⟨scid, dir⟩
    match minimum, maximum with
    | some m, _ =>
      let r := layer_update_constraint l0 scidd .min now m
      (none, upsert_layer st r.1, some r.2)
    | none, mx =>
      let r := layer_update_constraint l0 scidd .max now (mx.getD 0)
      (none, upsert_layer st r.1, some r.2)

/-- `json_askrene_create_channel` (askrene.c lines 396-449): if the named
layer exists and already holds a local channel for the scid, the request must
structurally match it or the command fails with no state change; otherwise the
layer is created lazily and the local channel inserted or replaced. -/
def json_askrene_create_channel (st : AskreneState) (layername : String)
    (src dst : NodeId) (scid : Nat)
    (capacity htlc_min htlc_max base_fee prop_fee delay : Nat) :
    Option String × AskreneState :=
  let update := fun (l : Layer) =>
    (none, upsert_layer st
      (layer_update_local_channel l src dst scid capacity base_fee prop_fee delay
        htlc_min htlc_max))
  match find_layer st layername with
  | some layer =>
    match layer_find_local_channel layer scid with
    | some lc =>
      if layer_check_local_channel lc src dst capacity then update layer
      else (some "channel already exists with different values!", st)
    | none => update layer
  | none => update (empty_layer layername)

/-! ### The route-query pipeline -/

/-- `get_capacities` (askrene.c lines 142-164): the shared capacity cache,
one fp16-compressed entry per channel in dense-index order; a channel whose
capacity cannot be read contributes capacity 0 (logged in the C code). -/
def get_capacities (g : Graph) : List Nat :=
  g.chans.map (fun c =>
    match c.capacity with
    | some cap => u64_to_fp16 cap
    | none => u64_to_fp16 0)

/-- The transient overlay patch (`struct gossmap_localmods`): channels to
inject and nodes to disable. -/
structure LocalMods where
  addChans : List GossChan
  disableNodes : List NodeId
deriving DecidableEq, Repr

/-- Modelled from the spec: `layer_add_localmods` from `layer.c`: register the
layer's local channels and disabled-node effects into the overlay patch.
Local-channel capacities are msat in the layer and satoshis in the graph. -/
def layer_add_localmods (l : Layer) (mods : LocalMods) : LocalMods :=
  { addChans := mods.addChans ++
      l.localChans.map (fun p => ⟨0, p.1, some (p.2.capacity / 1000)⟩),
    disableNodes := mods.disableNodes ++ l.disabled }

/-- Modelled from the spec: `gossmap_apply_localmods`: the overlay patch makes
its channels and disabled-node effects observable in the graph. -/
def gossmap_apply_localmods (g : Graph) (mods : LocalMods) : Graph :=
  { chans := g.chans ++ mods.addChans,
    disabled := g.disabled ++ mods.disableNodes }

/-- Modelled from the spec: `gossmap_remove_localmods`: removing the patch
restores the prior view exactly, by dropping what the patch appended. -/
def gossmap_remove_localmods (g : Graph) (mods : LocalMods) : Graph :=
  { chans := g.chans.take (g.chans.length - mods.addChans.length),
    disabled := g.disabled.take (g.disabled.length - mods.disableNodes.length) }

/-- Does this layer assert anything about this scid (a constraint in either
direction and of either kind, or a local channel)? -/
def layer_overrides (l : Layer) (scid : Nat) : Bool :=
  l.minCs.any (fun p => p.1.scid = scid) ||
  l.maxCs.any (fun p => p.1.scid = scid) ||
  l.localChans.any (fun p => p.1 = scid)

/-- Zero every cache entry whose same-index channel fails the `keep`
predicate (cache entries and graph channels share the dense index). -/
def caps_clear (keep : GossChan → Bool) : List Nat → List GossChan → List Nat
  | [], _ => []
  | c :: caps, [] => c :: caps
  | c :: caps, ch :: chans => (if keep ch then c else 0) :: caps_clear keep caps chans

/-- Modelled from the spec: `layer_clear_overridden_capacities` from
`layer.c`: zero the cache entry of every channel the layer asserts something
about, so the constraint engine takes the slow path there. -/
def layer_clear_overridden_capacities (l : Layer) (g : Graph) (caps : List Nat) :
    List Nat :=
  caps_clear (fun ch => ! layer_overrides l ch.scid) caps g.chans

/-- Modelled from the spec: `reserves_clear_capacities` from `reserve.c`:
zero the cache entry of every channel with an outstanding reservation in
either direction. -/
def reserves_clear_capacities (t : ReserveTable) (g : Graph) (caps : List Nat) :
    List Nat :=
  caps_clear (fun ch => ! t.any (fun p => p.1.scid = ch.scid)) caps g.chans

/-- One hop of a route (`struct route_hop`). -/
structure RouteHop where
  scid : Nat
  direction : Nat
  node_id : NodeId
  amount : Nat
  delay : Nat
deriving DecidableEq, Repr

/-- A route (`struct route`): success probability plus the hop sequence. -/
structure Route where
  success_prob : ℚ
  hops : List RouteHop
deriving DecidableEq

/-- Selection of layers and construction of the overlay and the private
capacity cache (askrene.c lines 187-208): for each requested name that names
an existing layer, select it, add its localmods, and clear the cache entries
it overrides; names of absent layers are silently skipped. -/
def build_query (st : AskreneState) (layerNames : List String) :
    List Layer × LocalMods × List Nat :=
  layerNames.foldl
    (fun acc name =>
      match find_layer st name with
      | none => acc
      | some l =>
        (acc.1 ++ [l], layer_add_localmods l acc.2.1,
         layer_clear_overridden_capacities l st.gossmap acc.2.2))
    ([], ⟨[], []⟩, st.capacities)

/-- `get_routes` (askrene.c lines 166-225): refresh the graph (the underlying
gossip store is external to the model, so the refresh is modelled as not
having advanced), build the query context, apply the overlay patch, produce
the stub single-hop route, remove the patch, and return success (`none`). -/
def get_routes (st : AskreneState) (source dest : NodeId) (amount : Nat)
    (layerNames : List String) : Option String × AskreneState × List Route :=
  let q := build_query st layerNames
  let caps := reserves_clear_capacities st.reserved st.gossmap q.2.2
  let rq : RouteQuery := { capacities := caps, layers := q.1, reserved := st.reserved }
  let g1 := gossmap_apply_localmods st.gossmap q.2.1
  let routes : List Route :=
    [{ success_prob := 1,
       hops := [{ scid := 0x0000010000020003, direction := 0, node_id := dest,
                  amount := amount, delay := 6 }] }]
  let g2 := gossmap_remove_localmods g1 q.2.1
  (none, { st with gossmap := g2 }, routes)

/-- `PAY_ROUTE_NOT_FOUND`, the payment-layer "no route" error code. -/
def PAY_ROUTE_NOT_FOUND : Nat := 205

/-- The C cast `(u64)(success_prob * 1000000)` (truncation toward zero of a
non-negative value). -/
def prob_to_ppm (p : ℚ) : Nat := ((p * 1000000).num / ((p * 1000000).den : Int)).toNat

/-- One route of the JSON response: `probability_ppm` plus the hop path. -/
structure RouteJson where
  probability_ppm : Nat
  path : List RouteHop
deriving DecidableEq, Repr

/-- `json_getroutes` (askrene.c lines 291-333), after parameter parsing: on a
`get_routes` error, fail with `PAY_ROUTE_NOT_FOUND`; otherwise serialise each
route's probability (in parts per million) and hops. -/
def json_getroutes (st : AskreneState) (source dest : NodeId) (amount : Nat)
    (layerNames : List String) :
    Except (Nat × String) (AskreneState × List RouteJson) :=
  match get_routes st source dest amount layerNames with
  | (some err, _, _) => .error (PAY_ROUTE_NOT_FOUND, err)
  | (none, st1, routes) =>
    .ok (st1, routes.map (fun r => ⟨prob_to_ppm r.success_prob, r.hops⟩))

/-- Truth value of a JSON-RPC handler outcome: did the command succeed? -/
def except_is_ok {ε α : Type} : Except ε α → Bool
  | .ok _ => true
  | .error _ => false

/-! ### Concrete fixtures used by counterexamples and witnesses -/

/-- A channel at index 0 with scid 7 and capacity 1000 sat. -/
def chan7 : GossChan := ⟨0, 7, some 1000⟩

/-- A query context whose cache has a nonzero fp16 entry for channel 7 while a
reservation of 5 msat is outstanding on (7, dir 0). -/
def rqC1 : RouteQuery :=
  { capacities := [1000], layers := [], reserved := [(⟨7, 0⟩, ⟨5, 1⟩)] }

/-- A graph holding one channel of capacity 1,000,000 sat (the spec's own
single-channel scenario). -/
def graphC2 : Graph := ⟨[⟨0, 7, some 1000000⟩], []⟩

/-- The channel of `graphC2`. -/
def chanC2 : GossChan := ⟨0, 7, some 1000000⟩

/-- Query context over `graphC2` with the cache built by `get_capacities`,
no layers and no reservations. -/
def rqC2 : RouteQuery :=
  { capacities := get_capacities graphC2, layers := [], reserved := [] }

/-- A layer carrying a MAX constraint at the u64 sentinel value for (7, 0). -/
def layerC6 : Layer :=
  { name := "u", minCs := [], maxCs := [(⟨7, 0⟩, ⟨U64MAX, 1⟩)],
    localChans := [], disabled := [] }

/-- Slow-path query context selecting only `layerC6`. -/
def rqC6 : RouteQuery := { capacities := [], layers := [layerC6], reserved := [] }

/-- A layer asserting MIN 1,000,000 and MAX 500,000 msat for (7, 0). -/
def layerC9 : Layer :=
  { name := "m", minCs := [(⟨7, 0⟩, ⟨1000000, 1⟩)],
    maxCs := [(⟨7, 0⟩, ⟨500000, 1⟩)], localChans := [], disabled := [] }

/-- Slow-path query context selecting `layerC9` with 100,000 msat reserved on
(7, 0). -/
def rqC9 : RouteQuery :=
  { capacities := [], layers := [layerC9], reserved := [(⟨7, 0⟩, ⟨100000, 1⟩)] }

/-- An empty plugin state. -/
def st0 : AskreneState := { gossmap := ⟨[], []⟩, capacities := [], reserved := [], layers := [] }

/-! ## Theorems -/

/-- Removing an overlay patch from a graph it was applied to restores the
graph exactly. -/
theorem remove_localmods_apply_localmods (g : Graph) (m : LocalMods) :
    gossmap_remove_localmods (gossmap_apply_localmods g m) m = g := by
  cases g with
  | mk chans disabled =>
    simp [gossmap_remove_localmods, gossmap_apply_localmods, List.take_left]

/-- C1 counterexample: with a nonzero cache entry for the channel and a
reservation of 5 msat outstanding on its (scid, dir), `get_constraints` takes
the fast path and returns the cache value with no reservation subtraction,
contradicting the claimed saturating subtraction of the reserved amount. -/
theorem claim_C1_cex :
    fast_path rqC1 chan7 ∧
    find_reserve rqC1.reserved ⟨chan7.scid, 0⟩ = some ⟨5, 1⟩ ∧
    get_constraints rqC1 chan7 0 ≠
      (msat_sub_sat 0 5,
       msat_sub_sat (fp16_to_u64 (rqC1.capacities.getD chan7.idx 0) * 1000) 5) := by
  refine ⟨by decide, by decide, by decide⟩

/-- C1 (amended): whenever the channel's index is within the capacity cache
and the cache entry is nonzero, `get_constraints` takes the fast path and
returns immediately: min = 0 and max = fp16_to_u64(cache[index]) * 1000 msat,
with no reservation subtraction. -/
theorem claim_C1 (rq : RouteQuery) (chan : GossChan) (dir : Nat)
    (h : fast_path rq chan) :
    get_constraints rq chan dir =
      (0, fp16_to_u64 (rq.capacities.getD chan.idx 0) * 1000) := by
  unfold get_constraints
  rw [if_pos h]

/-- C1 witness: the fast-path formula evaluated on the concrete context. -/
theorem claim_C1_witness :
    get_constraints rqC1 chan7 0 =
      (0, fp16_to_u64 (rqC1.capacities.getD chan7.idx 0) * 1000) :=
  claim_C1 rqC1 chan7 0 (by decide)

/-- A number is below 2 to its bit count. -/
theorem nbitsFuel_lt_two_pow :
    ∀ fuel n : Nat, n < 2 ^ fuel → n < 2 ^ nbitsFuel fuel n := by
  intro fuel
  induction fuel with
  | zero =>
    intro n h
    simpa [nbitsFuel] using h
  | succ f ih =>
    intro n h
    by_cases h0 : n = 0
    · simp [nbitsFuel, h0]
    · simp only [nbitsFuel, h0, if_false]
      have hd : n / 2 < 2 ^ f := by
        rw [pow_succ] at h
        omega
      have hn := ih (n / 2) hd
      rw [pow_succ]
      omega

/-- The bit count of a number below `2 ^ k` is at most `k` (given enough
fuel). -/
theorem nbitsFuel_le :
    ∀ fuel k n : Nat, n < 2 ^ k → k ≤ fuel → nbitsFuel fuel n ≤ k := by
  intro fuel
  induction fuel with
  | zero =>
    intro k n _ _
    simp [nbitsFuel]
  | succ f ih =>
    intro k n h hk
    by_cases h0 : n = 0
    · simp [nbitsFuel, h0]
    · simp only [nbitsFuel, h0, if_false]
      rcases k with _ | k
      · simp at h
        omega
      · have hd : n / 2 < 2 ^ k := by
          rw [pow_succ] at h
          omega
        have := ih k (n / 2) hd (by omega)
        omega

/-- Round-up fp16 compression never loses value downward: for any u64 value
small enough not to hit the exponent clamp, decompressing the compressed
value yields at least the original. -/
theorem fp16_roundtrip_ge (v : Nat) (h : v < 2 ^ 41) :
    v ≤ fp16_to_u64 (u64_to_fp16 v) := by
  by_cases h0 : v = 0
  · simp [h0]
  have hv64 : v < 2 ^ 64 := lt_of_lt_of_le h (Nat.pow_le_pow_right (by norm_num) (by norm_num))
  have hvlt : v < 2 ^ nbits v := nbitsFuel_lt_two_pow 64 v hv64
  have hble : nbits v ≤ 41 := nbitsFuel_le 64 41 v h (by norm_num)
  by_cases hsmall : nbits v ≤ 11
  · have hlt : v < 2048 := by
      have h1 : (2 : Nat) ^ nbits v ≤ 2 ^ 11 := Nat.pow_le_pow_right (by norm_num) hsmall
      have : (2 : Nat) ^ 11 = 2048 := by norm_num
      omega
    rw [u64_to_fp16, if_neg h0, if_pos hsmall, fp16_to_u64,
        Nat.mod_eq_of_lt hlt, Nat.div_eq_of_lt hlt]
    simp
  · rw [u64_to_fp16, if_neg h0, if_neg hsmall]
    simp only []
    obtain ⟨b, hb⟩ : ∃ b, nbits v = b := ⟨_, rfl⟩
    rw [hb] at hvlt hble hsmall ⊢
    have hb12 : 12 ≤ b := by omega
    obtain ⟨e, he⟩ : ∃ e, b - 11 = e := ⟨_, rfl⟩
    rw [he]
    have he30 : e ≤ 30 := by omega
    obtain ⟨m, hm⟩ : ∃ m, v / 2 ^ e = m := ⟨_, rfl⟩
    rw [hm]
    have hAe : (0 : Nat) < 2 ^ e := Nat.pos_pow_of_pos e (by norm_num)
    have hmlt : m < 2048 := by
      have hsplit : (2 : Nat) ^ b = 2 ^ e * 2 ^ 11 := by
        rw [← pow_add]
        congr 1
        omega
      have hv2 : v < 2 ^ e * 2048 := by
        have h11 : (2 : Nat) ^ 11 = 2048 := by norm_num
        rw [hsplit, h11] at hvlt
        exact hvlt
      rw [← hm]
      exact Nat.div_lt_of_lt_mul (by omega)
    have hlb : m * 2 ^ e ≤ v := by
      rw [← hm]
      exact Nat.div_mul_le_self v (2 ^ e)
    have hcm : m * 2 ^ e = 2 ^ e * m := Nat.mul_comm _ _
    have hmodv : 2 ^ e * m + v % 2 ^ e = v := by
      rw [← hm]
      exact Nat.div_add_mod v (2 ^ e)
    have hrlt : v % 2 ^ e < 2 ^ e := Nat.mod_lt v hAe
    have hdist : (m + 1) * 2 ^ e = 2 ^ e * m + 2 ^ e := by ring
    have hub : v < (m + 1) * 2 ^ e := by omega
    by_cases hrnd : m * 2 ^ e < v
    · rw [if_pos hrnd]
      by_cases hcarry : m + 1 = 2048
      · rw [if_pos hcarry, if_pos hcarry, if_neg (by omega : ¬ 32 ≤ e + 1),
            fp16_to_u64]
        have hmod1 : ((e + 1) * 2048 + 1024) % 2048 = 1024 := by omega
        have hdiv1 : ((e + 1) * 2048 + 1024) / 2048 = e + 1 := by omega
        rw [hmod1, hdiv1]
        have hpow : (1024 : Nat) * 2 ^ (e + 1) = 2048 * 2 ^ e := by
          rw [pow_succ]
          ring
        rw [hpow]
        have hm2047 : m = 2047 := by omega
        have hms : 2 ^ e * m = 2 ^ e * 2047 := by rw [hm2047]
        omega
      · rw [if_neg hcarry, if_neg hcarry, if_neg (by omega : ¬ 32 ≤ e),
            fp16_to_u64]
        have hmod1 : (e * 2048 + (m + 1)) % 2048 = m + 1 := by omega
        have hdiv1 : (e * 2048 + (m + 1)) / 2048 = e := by omega
        rw [hmod1, hdiv1]
        omega
    · rw [if_neg hrnd]
      have heq : m * 2 ^ e = v := le_antisymm hlb (not_lt.mp hrnd)
      rw [if_neg (by omega : ¬ m = 2048), if_neg (by omega : ¬ m = 2048),
          if_neg (by omega : ¬ 32 ≤ e),
          fp16_to_u64]
      have hmod1 : (e * 2048 + m) % 2048 = m := by omega
      have hdiv1 : (e * 2048 + m) / 2048 = e := by omega
      rw [hmod1, hdiv1]
      omega

/-- The layer fold leaves the accumulator unchanged on layers that carry no
constraint for the scidd. -/
theorem layer_fold_no_constraints (layers : List Layer) (scidd : ShortChannelIdDir)
    (h : ∀ l ∈ layers, layer_find_constraint l scidd .min = none ∧
         layer_find_constraint l scidd .max = none) :
    layer_fold layers scidd = (0, U64MAX) := by
  unfold layer_fold
  induction layers with
  | nil => rfl
  | cons l rest ih =>
    have hl := h l (by simp)
    have hr : ∀ x ∈ rest, layer_find_constraint x scidd .min = none ∧
        layer_find_constraint x scidd .max = none := fun x hx => h x (by simp [hx])
    simp only [List.foldl_cons, fold_step, hl.1, hl.2, min_step, max_step]
    exact ih hr

/-- C2 counterexample: the spec's own single channel of 1,000,000 sat, no
layers and no reservations; the fp16 cache entry built by `get_capacities`
decompresses to 1,000,448 sat, so the fast path answers
(0, 1,000,448,000 msat), not the exact (0, 1,000,000,000 msat). -/
theorem claim_C2_cex :
    get_capacities graphC2 = [20386] ∧
    get_constraints rqC2 chanC2 0 = (0, 1000448000) ∧
    (0, 1000448000) ≠ ((0, 1000000 * 1000) : Nat × Nat) := by
  refine ⟨by decide, by decide, by decide⟩

/-- C2 (amended): for a channel in the graph with no layer constraints in
either direction and no reservation on (scid, dir): whenever
`get_constraints` takes the slow path and the capacity converts to msat
without u64 overflow, it returns exactly (0, capacity_msat); through the
fp16-compressed cache fast path it returns
(0, fp16_to_u64(u64_to_fp16(capacity_sat)) * 1000), which equals
(0, capacity_msat) if and only if the fp16 round-trip preserves the
capacity, and which for capacities below 2^41 sat is an over-approximation
(fast-path max at least capacity_msat; at larger capacities the 5-bit
exponent clamp can round downward instead). -/
theorem claim_C2 (rq : RouteQuery) (chan : GossChan) (dir : Nat) (cap : Nat)
    (hcap : chan.capacity = some cap)
    (hlayers : ∀ l ∈ rq.layers, ∀ d : Nat,
      layer_find_constraint l ⟨chan.scid, d⟩ .min = none ∧
      layer_find_constraint l ⟨chan.scid, d⟩ .max = none)
    (hres : find_reserve rq.reserved ⟨chan.scid, dir⟩ = none) :
    (¬ fast_path rq chan → cap * 1000 ≤ U64MAX →
      get_constraints rq chan dir = (0, cap * 1000)) ∧
    (fast_path rq chan → rq.capacities.getD chan.idx 0 = u64_to_fp16 cap →
      get_constraints rq chan dir = (0, fp16_to_u64 (u64_to_fp16 cap) * 1000) ∧
      (get_constraints rq chan dir = (0, cap * 1000) ↔
        fp16_to_u64 (u64_to_fp16 cap) = cap) ∧
      (cap < 2 ^ 41 → cap * 1000 ≤ (get_constraints rq chan dir).2)) := by
  have hfold : layer_fold rq.layers ⟨chan.scid, dir⟩ = (0, U64MAX) :=
    layer_fold_no_constraints rq.layers ⟨chan.scid, dir⟩ (fun l hl => hlayers l hl dir)
  constructor
  · intro hslow hov
    rw [get_constraints, if_neg hslow]
    simp only [hfold, hcap]
    have hmsat : amount_sat_to_msat cap = some (cap * 1000) := by
      rw [amount_sat_to_msat, if_pos hov]
    simp [hmsat, hres]
  · intro hfast hentry
    have hformula : get_constraints rq chan dir =
        (0, fp16_to_u64 (u64_to_fp16 cap) * 1000) := by
      rw [get_constraints, if_pos hfast, hentry]
    refine ⟨hformula, ?_, ?_⟩
    · constructor
      · intro h
        rw [hformula] at h
        have h2 : fp16_to_u64 (u64_to_fp16 cap) * 1000 = cap * 1000 :=
          congrArg Prod.snd h
        exact Nat.eq_of_mul_eq_mul_right (by norm_num) h2
      · intro h
        rw [hformula, h]
    · intro hbound
      have := fp16_roundtrip_ge cap hbound
      rw [hformula]
      simp only []
      omega

/-- C2 witness: at the fixture context the fast-path formula, the failure of
exactness (the round-trip moves 1,000,000 to 1,000,448), and the
over-approximation bound; and slow-path exactness for the same channel with
an empty cache. -/
theorem claim_C2_witness :
    get_constraints rqC2 chanC2 0 = (0, fp16_to_u64 (u64_to_fp16 1000000) * 1000) ∧
    (get_constraints rqC2 chanC2 0 = (0, 1000000 * 1000) ↔
      fp16_to_u64 (u64_to_fp16 1000000) = 1000000) ∧
    1000000 * 1000 ≤ (get_constraints rqC2 chanC2 0).2 ∧
    get_constraints { capacities := [], layers := [], reserved := [] } chanC2 0 =
      (0, 1000000 * 1000) := by
  have hfast := (claim_C2 rqC2 chanC2 0 1000000 rfl
      (by intro l hl d; simp [rqC2] at hl)
      (by decide)).2 (by decide) (by decide)
  have hslow := (claim_C2 { capacities := [], layers := [], reserved := [] }
      chanC2 0 1000000 rfl
      (by intro l hl d; simp at hl)
      (by decide)).1 (by decide) (by norm_num [U64MAX])
  exact ⟨hfast.1, hfast.2.1, hfast.2.2 (by norm_num), hslow⟩

/-- C3: on every input, `getroutes` succeeds with exactly one route of
exactly one hop carrying the requested amount to the destination with delay 6
and probability_ppm 1,000,000. -/
theorem claim_C3 (st : AskreneState) (source dest : NodeId) (amount : Nat)
    (layerNames : List String) :
    json_getroutes st source dest amount layerNames =
      .ok ((get_routes st source dest amount layerNames).2.1,
           [⟨1000000, [⟨0x0000010000020003, 0, dest, amount, 6⟩]⟩]) := by
  have hppm : prob_to_ppm 1 = 1000000 := by
    norm_num [prob_to_ppm]
    decide
  simp [json_getroutes, get_routes, hppm]

/-- C5: the overlay patch is applied and removed on the only exit path of
`get_routes`, so the plugin state (in particular the graph, its channels and
policies) observable after a query equals the one observable before. -/
theorem claim_C5 (st : AskreneState) (source dest : NodeId) (amount : Nat)
    (layerNames : List String) :
    (get_routes st source dest amount layerNames).2.1 = st := by
  unfold get_routes
  simp [remove_localmods_apply_localmods]

/-- C10: `get_routes` returns `none` (success) on every input, so the
route-not-found failure branch of `json_getroutes` is unreachable and the
command never fails with `PAY_ROUTE_NOT_FOUND`. -/
theorem claim_C10 (st : AskreneState) (source dest : NodeId) (amount : Nat)
    (layerNames : List String) :
    (get_routes st source dest amount layerNames).1 = none ∧
    except_is_ok (json_getroutes st source dest amount layerNames) = true :=
  ⟨rfl, rfl⟩

/-- The MIN update of the layer fold commutes with itself. -/
theorem min_step_comm (o1 o2 : Option Constraint) (x : Nat) :
    min_step o2 (min_step o1 x) = min_step o1 (min_step o2 x) := by
  cases o1 <;> cases o2 <;> simp only [min_step] <;> split_ifs <;> omega

/-- The MAX update of the layer fold commutes with itself. -/
theorem max_step_comm (o1 o2 : Option Constraint) (x : Nat) :
    max_step o2 (max_step o1 x) = max_step o1 (max_step o2 x) := by
  cases o1 <;> cases o2 <;> simp only [max_step] <;> split_ifs <;> omega

/-- The layer fold is insensitive to permutations of the layer list. -/
theorem foldl_fold_step_perm (scidd : ShortChannelIdDir) {l1 l2 : List Layer}
    (p : l1.Perm l2) (acc : Nat × Nat) :
    l1.foldl (fold_step scidd) acc = l2.foldl (fold_step scidd) acc :=
  p.foldl_eq'
    (fun x _ y _ z => by
      simp only [fold_step]
      rw [min_step_comm, max_step_comm])
    acc

/-- A MIN update on a present constraint is a `max`. -/
theorem min_step_some (c : Constraint) (x : Nat) :
    min_step (some c) x = max x c.limit := by
  simp only [min_step]
  split_ifs <;> omega

/-- A MAX update on a present constraint is a `min`. -/
theorem max_step_some (c : Constraint) (x : Nat) :
    max_step (some c) x = min x c.limit := by
  simp only [max_step]
  split_ifs <;> omega

/-- A MIN update on an absent constraint is the identity. -/
theorem min_step_none (x : Nat) : min_step none x = x := rfl

/-- A MAX update on an absent constraint is the identity. -/
theorem max_step_none (x : Nat) : max_step none x = x := rfl

/-- The layer fold computes componentwise folds of `max` over the MIN limits
and of `min` over the MAX limits. -/
theorem foldl_fold_step_eq (scidd : ShortChannelIdDir) (layers : List Layer) :
    ∀ acc : Nat × Nat,
      layers.foldl (fold_step scidd) acc =
        ((minLimits layers scidd).foldl max acc.1,
         (maxLimits layers scidd).foldl min acc.2) := by
  induction layers with
  | nil =>
    intro acc
    simp [minLimits, maxLimits]
  | cons l rest ih =>
    intro acc
    rcases hmin : layer_find_constraint l scidd .min with _ | c <;>
      rcases hmax : layer_find_constraint l scidd .max with _ | c' <;>
        simp [minLimits, maxLimits, List.filterMap_cons, hmin, hmax, fold_step,
              min_step_some, max_step_some, min_step_none, max_step_none, ih]

/-- Every element of a list is bounded by the `max`-fold over it, which also
dominates the seed. -/
theorem foldl_max_bounds (L : List Nat) :
    ∀ a : Nat, (∀ x ∈ L, x ≤ L.foldl max a) ∧ a ≤ L.foldl max a := by
  induction L with
  | nil => simp
  | cons y ys ih =>
    intro a
    refine ⟨?_, ?_⟩
    · intro x hx
      rcases List.mem_cons.mp hx with hxy | hxys
      · subst hxy
        have h1 := (ih (max a x)).2
        simp only [List.foldl_cons]
        omega
      · exact (ih (max a y)).1 x hxys
    · have h1 := (ih (max a y)).2
      simp only [List.foldl_cons]
      omega

/-- The `max`-fold over a list is the seed or one of its elements. -/
theorem foldl_max_mem (L : List Nat) :
    ∀ a : Nat, L.foldl max a = a ∨ L.foldl max a ∈ L := by
  induction L with
  | nil => simp
  | cons y ys ih =>
    intro a
    simp only [List.foldl_cons]
    rcases ih (max a y) with h | h
    · rcases Nat.le_total a y with hay | hya
      · right
        rw [h, Nat.max_eq_right hay]
        exact List.mem_cons_self y ys
      · left
        rw [h, Nat.max_eq_left hya]
    · right
      exact List.mem_cons_of_mem y h

/-- Every element of a list bounds the `min`-fold over it, which is also
dominated by the seed. -/
theorem foldl_min_bounds (L : List Nat) :
    ∀ a : Nat, (∀ x ∈ L, L.foldl min a ≤ x) ∧ L.foldl min a ≤ a := by
  induction L with
  | nil => simp
  | cons y ys ih =>
    intro a
    refine ⟨?_, ?_⟩
    · intro x hx
      rcases List.mem_cons.mp hx with hxy | hxys
      · subst hxy
        have h1 := (ih (min a x)).2
        simp only [List.foldl_cons]
        omega
      · exact (ih (min a y)).1 x hxys
    · have h1 := (ih (min a y)).2
      simp only [List.foldl_cons]
      omega

/-- The `min`-fold over a list is the seed or one of its elements. -/
theorem foldl_min_mem (L : List Nat) :
    ∀ a : Nat, L.foldl min a = a ∨ L.foldl min a ∈ L := by
  induction L with
  | nil => simp
  | cons y ys ih =>
    intro a
    simp only [List.foldl_cons]
    rcases ih (min a y) with h | h
    · rcases Nat.le_total a y with hay | hya
      · left
        rw [h, Nat.min_eq_left hay]
      · right
        rw [h, Nat.min_eq_right hya]
        exact List.mem_cons_self y ys
    · right
      exact List.mem_cons_of_mem y h

/-- C6 counterexample: a layer carrying a MAX constraint whose limit is the
u64 sentinel. A MAX constraint applies, yet `get_constraints` does not return
the minimum of the MAX limits (the sentinel): it falls back to the channel
capacity. -/
theorem claim_C6_cex :
    maxLimits rqC6.layers ⟨chan7.scid, 0⟩ = [U64MAX] ∧
    get_constraints rqC6 chan7 0 = (0, 1000000) ∧
    (1000000 : Nat) ≠ (maxLimits rqC6.layers ⟨chan7.scid, 0⟩).foldl min U64MAX := by
  refine ⟨by decide, by decide, by decide⟩

/-- C6 (amended): on the slow path the folded minimum is the maximum of 0 and
all MIN-constraint limits for the scidd across selected layers, and the
folded maximum is the minimum of the u64 sentinel and all MAX-constraint
limits; the capacity fallback applies exactly when the folded maximum is
still the sentinel (in particular when no MAX constraint applies, but also
when every applying MAX limit equals the sentinel). The (min, max) result of
`get_constraints` is invariant under any permutation of the selected-layers
list. -/
theorem claim_C6 (rq : RouteQuery) (chan : GossChan) (dir : Nat)
    (h : ¬ fast_path rq chan) :
    (∀ x ∈ minLimits rq.layers ⟨chan.scid, dir⟩,
        x ≤ (layer_fold rq.layers ⟨chan.scid, dir⟩).1) ∧
    ((layer_fold rq.layers ⟨chan.scid, dir⟩).1 = 0 ∨
        (layer_fold rq.layers ⟨chan.scid, dir⟩).1 ∈ minLimits rq.layers ⟨chan.scid, dir⟩) ∧
    (∀ x ∈ maxLimits rq.layers ⟨chan.scid, dir⟩,
        (layer_fold rq.layers ⟨chan.scid, dir⟩).2 ≤ x) ∧
    ((layer_fold rq.layers ⟨chan.scid, dir⟩).2 = U64MAX ∨
        (layer_fold rq.layers ⟨chan.scid, dir⟩).2 ∈ maxLimits rq.layers ⟨chan.scid, dir⟩) ∧
    (∀ layers2 : List Layer, rq.layers.Perm layers2 →
        get_constraints { rq with layers := layers2 } chan dir =
          get_constraints rq chan dir) := by
  have hfold := foldl_fold_step_eq ⟨chan.scid, dir⟩ rq.layers (0, U64MAX)
  refine ⟨?_, ?_, ?_, ?_, ?_⟩
  · intro x hx
    rw [layer_fold, hfold]
    exact (foldl_max_bounds _ 0).1 x hx
  · rw [layer_fold, hfold]
    exact foldl_max_mem _ 0
  · intro x hx
    rw [layer_fold, hfold]
    exact (foldl_min_bounds _ U64MAX).1 x hx
  · rw [layer_fold, hfold]
    exact foldl_min_mem _ U64MAX
  · intro layers2 hperm
    have hf2 : layer_fold layers2 ⟨chan.scid, dir⟩ = layer_fold rq.layers ⟨chan.scid, dir⟩ :=
      foldl_fold_step_perm ⟨chan.scid, dir⟩ hperm.symm (0, U64MAX)
    by_cases hf : fast_path rq chan
    · exact absurd hf h
    · have hf' : ¬ fast_path { rq with layers := layers2 } chan := hf
      simp only [get_constraints, if_neg hf, if_neg hf', hf2]

/-- C6 witness: the folded minimum over the fixture's empty MIN-limit list is
the seed 0. -/
theorem claim_C6_witness :
    (layer_fold rqC6.layers ⟨chan7.scid, 0⟩).1 = 0 ∨
    (layer_fold rqC6.layers ⟨chan7.scid, 0⟩).1 ∈ minLimits rqC6.layers ⟨chan7.scid, 0⟩ :=
  (claim_C6 rqC6 chan7 0 (by decide)).2.1

/-- A cache entry whose channel fails the keep predicate reads back as 0
after `caps_clear`. -/
theorem caps_clear_getD_zero (keep : GossChan → Bool) :
    ∀ (caps : List Nat) (chans : List GossChan) (i : Nat) (ch : GossChan),
      chans[i]? = some ch → keep ch = false →
      (caps_clear keep caps chans).getD i 0 = 0 := by
  intro caps
  induction caps with
  | nil =>
    intro chans i ch _ _
    simp [caps_clear]
  | cons c rest ih =>
    intro chans i ch hch hkeep
    cases chans with
    | nil => simp at hch
    | cons ch' chans' =>
      cases i with
      | zero =>
        simp only [List.getElem?_cons_zero, Option.some.injEq] at hch
        subst hch
        simp [caps_clear, hkeep]
      | succ j =>
        simp only [List.getElem?_cons_succ] at hch
        simp only [caps_clear, List.getD_cons_succ]
        exact ih chans' j ch hch hkeep

/-- A scidd with a reservation record makes the per-scid any-test true. -/
theorem reserved_scid_any (t : ReserveTable) (scidd : ShortChannelIdDir) (res : Reserve)
    (h : find_reserve t scidd = some res) :
    (t.any fun p => p.1.scid = scidd.scid) = true := by
  induction t with
  | nil => simp [find_reserve, assoc_find] at h
  | cons p rest ih =>
    rw [find_reserve, assoc_find] at h
    by_cases hp : p.1 = scidd
    · simp [List.any_cons, hp]
    · rw [if_neg hp] at h
      simp [List.any_cons, ih h]

/-- C9: whenever a reservation is present for the (scid, dir) of a slow-path
channel, `get_constraints` subtracts its amount from both the min and the max
it would otherwise return, saturating at 0; in any query context whose cache
was prepared by `reserves_clear_capacities` a reserved channel always takes
the slow path, so the subtraction applies to every reserved (channel, dir)
the pipeline evaluates; and min > max is a reachable output (the fixture:
MIN 1,000,000 and MAX 500,000 msat with 100,000 msat reserved yields
(900,000, 400,000)). -/
theorem claim_C9 :
    (∀ (rq : RouteQuery) (chan : GossChan) (dir : Nat) (res : Reserve),
        ¬ fast_path rq chan →
        find_reserve rq.reserved ⟨chan.scid, dir⟩ = some res →
        get_constraints rq chan dir =
          (msat_sub_sat (get_constraints { rq with reserved := [] } chan dir).1 res.amount,
           msat_sub_sat (get_constraints { rq with reserved := [] } chan dir).2 res.amount)) ∧
    (∀ (g : Graph) (caps0 : List Nat) (layers : List Layer) (t : ReserveTable)
        (chan : GossChan) (dir : Nat) (res : Reserve),
        g.chans[chan.idx]? = some chan →
        find_reserve t ⟨chan.scid, dir⟩ = some res →
        ¬ fast_path
          { capacities := reserves_clear_capacities t g caps0,
            layers := layers, reserved := t } chan) ∧
    (get_constraints rqC9 chan7 0).2 < (get_constraints rqC9 chan7 0).1 := by
  refine ⟨?_, ?_, ?_⟩
  · intro rq chan dir res hf hres
    have hf' : ¬ fast_path { rq with reserved := ([] : ReserveTable) } chan := hf
    have hnone : find_reserve ([] : ReserveTable) (⟨chan.scid, dir⟩ : ShortChannelIdDir) = none := rfl
    simp only [get_constraints, if_neg hf, if_neg hf', hres, hnone]
  · intro g caps0 layers t chan dir res hch hres
    intro hfast
    have hzero : (reserves_clear_capacities t g caps0).getD chan.idx 0 = 0 := by
      apply caps_clear_getD_zero _ caps0 g.chans chan.idx chan hch
      simp [reserved_scid_any t ⟨chan.scid, dir⟩ res hres]
    exact hfast.2 hzero
  · decide

/-- C9 witness: the saturating-subtraction identity evaluated on the fixture
context. -/
theorem claim_C9_witness :
    get_constraints rqC9 chan7 0 =
      (msat_sub_sat (get_constraints { rqC9 with reserved := [] } chan7 0).1 100000,
       msat_sub_sat (get_constraints { rqC9 with reserved := [] } chan7 0).2 100000) :=
  claim_C9.1 rqC9 chan7 0 ⟨100000, 1⟩ (by decide) (by decide)

/-- `reserves_add` applies a maximal prefix of the path: the returned count
never exceeds the path length, re-running on just that prefix reproduces the
result exactly (so nothing at or past the failing index was applied), and
when the count is short of the length the entry at the failing index
overflows on the partially-updated table. -/
theorem reserves_add_prefix (path : List (ShortChannelIdDir × Nat)) :
    ∀ t : ReserveTable,
      (reserves_add t path).1 ≤ path.length ∧
      reserves_add t (path.take (reserves_add t path).1) = reserves_add t path ∧
      (∀ h : (reserves_add t path).1 < path.length,
        reserve_add_one (reserves_add t path).2
          (path.get ⟨(reserves_add t path).1, h⟩).1
          (path.get ⟨(reserves_add t path).1, h⟩).2 = none) := by
  induction path with
  | nil =>
    intro t
    exact ⟨Nat.le_refl _, rfl, fun h => absurd h (by simp)⟩
  | cons e rest ih =>
    intro t
    obtain ⟨s, a⟩ := e
    cases hadd : reserve_add_one t s a with
    | none =>
      refine ⟨?_, ?_, ?_⟩
      · simp [reserves_add, hadd]
      · simp [reserves_add, hadd]
      · intro h
        simp only [reserves_add, hadd]
        exact hadd
    | some t1 =>
      obtain ⟨ih1, ih2, ih3⟩ := ih t1
      refine ⟨?_, ?_, ?_⟩
      · simp only [reserves_add, hadd, List.length_cons]
        omega
      · simp only [reserves_add, hadd, List.take_succ_cons]
        rw [ih2]
      · intro h
        simp only [reserves_add, hadd] at h ⊢
        have h' : (reserves_add t1 rest).1 < rest.length := by
          simp at h
          omega
        exact ih3 h'

/-- C4: the reserve command attempts the path's entries in order; the first
failing index bounds the path length, entries before it stay applied and none
at or after it are, the entry at the failing index overflows on the resulting
table, and whenever the index is short of the path length the whole command
fails with a diagnostic naming the failing scidd, the requested amount, and
the amount already reserved there. -/
theorem claim_C4 (t : ReserveTable) (path : List (ShortChannelIdDir × Nat)) :
    (reserves_add t path).1 ≤ path.length ∧
    reserves_add t (path.take (reserves_add t path).1) = reserves_add t path ∧
    (∀ h : (reserves_add t path).1 < path.length,
      reserve_add_one (reserves_add t path).2
        (path.get ⟨(reserves_add t path).1, h⟩).1
        (path.get ⟨(reserves_add t path).1, h⟩).2 = none) ∧
    ((reserves_add t path).1 ≠ path.length →
      json_askrene_reserve t path =
        (some ⟨(reserves_add t path).1,
               (path.getD (reserves_add t path).1 (⟨0, 0⟩, 0)).1,
               (path.getD (reserves_add t path).1 (⟨0, 0⟩, 0)).2,
               (find_reserve (reserves_add t path).2
                 (path.getD (reserves_add t path).1 (⟨0, 0⟩, 0)).1).map Reserve.amount⟩,
         (reserves_add t path).2)) := by
  obtain ⟨h1, h2, h3⟩ := reserves_add_prefix path t
  refine ⟨h1, h2, h3, ?_⟩
  intro hne
  simp only [json_askrene_reserve, if_neg hne]

/-- C4 witness: reserving 10 msat and then u64-max msat on the same scidd
fails at index 1 with the partial table kept and the diagnostic filled in. -/
theorem claim_C4_witness :
    json_askrene_reserve ([] : ReserveTable) [(⟨7, 0⟩, 10), (⟨7, 0⟩, U64MAX)] =
      (some ⟨1, ⟨7, 0⟩, U64MAX, some 10⟩, [(⟨7, 0⟩, ⟨10, 1⟩)]) :=
  (claim_C4 [] [(⟨7, 0⟩, 10), (⟨7, 0⟩, U64MAX)]).2.2.2 (by decide)

/-- Inserting-or-replacing a binding makes it the one found for its key. -/
theorem assoc_find_update_self {α β : Type} [DecidableEq α]
    (xs : List (α × β)) (k : α) (v : β) :
    assoc_find (assoc_update xs k v) k = some v := by
  induction xs with
  | nil => simp [assoc_update, assoc_find]
  | cons p rest ih =>
    by_cases hp : p.1 = k
    · have hany : ((p :: rest).any fun q => q.1 = k) = true := by
        simp [List.any_cons, hp]
      simp [assoc_update, assoc_find, hany, hp]
    · cases hany : (rest.any fun q => q.1 = k) with
      | true =>
        have hany' : ((p :: rest).any fun q => q.1 = k) = true := by
          simp [List.any_cons, hany]
        have ih' := ih
        simp only [assoc_update, hany, if_true] at ih'
        simp [assoc_update, assoc_find, hany', hp]
        simpa using ih'
      | false =>
        have hany' : ((p :: rest).any fun q => q.1 = k) = false := by
          simp [List.any_cons, hany]
          simpa using hp
        have ih' := ih
        simp only [assoc_update, hany, Bool.false_eq_true, if_false] at ih'
        simp [assoc_update, assoc_find, hany', hp]
        simpa using ih'

/-- A found layer bears the looked-up name. -/
theorem find_layer_name {st : AskreneState} {name : String} {l : Layer}
    (h : find_layer st name = some l) : l.name = name := by
  unfold find_layer at h
  have hp := List.find?_some h
  exact eq_of_beq hp

/-- Appending a layer to a store with no layer of that name makes it the one
found. -/
theorem layers_find_append (ls : List Layer) (l : Layer)
    (h : (ls.any fun x => x.name == l.name) = false) :
    ((ls ++ [l]).find? fun x => x.name == l.name) = some l := by
  induction ls with
  | nil => simp
  | cons y ys ih =>
    simp only [List.any_cons, Bool.or_eq_false_iff] at h
    rw [List.cons_append, List.find?_cons_of_neg _ (by simp [h.1])]
    exact ih h.2

/-- Replacing the layer of a given name in a store that has one makes the
replacement the one found. -/
theorem layers_find_map (ls : List Layer) (l : Layer)
    (h : (ls.any fun x => x.name == l.name) = true) :
    ((ls.map fun x => if x.name == l.name then l else x).find?
        fun x => x.name == l.name) = some l := by
  induction ls with
  | nil => simp at h
  | cons y ys ih =>
    cases hy : (y.name == l.name) with
    | true =>
      simp only [List.map_cons, hy, if_true]
      rw [List.find?_cons_of_pos _ (by simp)]
    | false =>
      simp only [List.map_cons, hy, Bool.false_eq_true, if_false]
      rw [List.find?_cons_of_neg _ (by simp [hy])]
      apply ih
      simpa [List.any_cons, hy] using h


/-- Writing a layer back into the store makes it the one found under its
name. -/
theorem find_layer_upsert_self (st : AskreneState) (l : Layer) :
    find_layer (upsert_layer st l) l.name = some l := by
  unfold find_layer upsert_layer
  cases hany : (st.layers.any fun x => x.name == l.name) with
  | true =>
    simp only [hany, if_true]
    exact layers_find_map st.layers l hany
  | false =>
    simp only [hany, Bool.false_eq_true, if_false]
    exact layers_find_append st.layers l hany

/-- The layer a command works on (found, or freshly created) bears the
requested name. -/
theorem getD_layer_name (st : AskreneState) (layername : String) :
    ((find_layer st layername).getD (empty_layer layername)).name = layername := by
  cases hf : find_layer st layername with
  | none => rfl
  | some l =>
    simpa using find_layer_name hf

/-- After `layer_update_local_channel` is written back into the store, looking
the layer up by name and the channel up by scid yields exactly the requested
local channel. -/
theorem create_channel_lookup (st : AskreneState) (layername : String) (l : Layer)
    (hname : l.name = layername) (src dst : NodeId)
    (scid capacity base_fee prop_fee delay htlc_min htlc_max : Nat) :
    ((find_layer (upsert_layer st (layer_update_local_channel l src dst scid capacity
        base_fee prop_fee delay htlc_min htlc_max)) layername).bind
      fun x => layer_find_local_channel x scid) =
      some ⟨src, dst, capacity, htlc_min, htlc_max, base_fee, prop_fee, delay⟩ := by
  have hname1 : (layer_update_local_channel l src dst scid capacity base_fee prop_fee
      delay htlc_min htlc_max).name = layername := hname
  have hfind := find_layer_upsert_self st
    (layer_update_local_channel l src dst scid capacity base_fee prop_fee delay
      htlc_min htlc_max)
  rw [hname1] at hfind
  rw [hfind]
  simp only [Option.some_bind, layer_find_local_channel, layer_update_local_channel]
  exact assoc_find_update_self l.localChans scid _


/-- C8: create-channel fails with no state change when the named layer already
holds a structurally different local channel for the scid; it replaces the
channel when the existing one matches; and it inserts the channel (creating
the layer lazily) when the layer or the channel is absent. -/
theorem claim_C8 (st : AskreneState) (layername : String) (src dst : NodeId)
    (scid capacity htlc_min htlc_max base_fee prop_fee delay : Nat) :
    (∀ layer lc, find_layer st layername = some layer →
        layer_find_local_channel layer scid = some lc →
        layer_check_local_channel lc src dst capacity = false →
        json_askrene_create_channel st layername src dst scid capacity htlc_min
            htlc_max base_fee prop_fee delay =
          (some "channel already exists with different values!", st)) ∧
    (∀ layer lc, find_layer st layername = some layer →
        layer_find_local_channel layer scid = some lc →
        layer_check_local_channel lc src dst capacity = true →
        (json_askrene_create_channel st layername src dst scid capacity htlc_min
            htlc_max base_fee prop_fee delay).1 = none ∧
        ((find_layer (json_askrene_create_channel st layername src dst scid capacity
            htlc_min htlc_max base_fee prop_fee delay).2 layername).bind
          fun x => layer_find_local_channel x scid) =
          some ⟨src, dst, capacity, htlc_min, htlc_max, base_fee, prop_fee, delay⟩) ∧
    (∀ layer, find_layer st layername = some layer →
        layer_find_local_channel layer scid = none →
        (json_askrene_create_channel st layername src dst scid capacity htlc_min
            htlc_max base_fee prop_fee delay).1 = none ∧
        ((find_layer (json_askrene_create_channel st layername src dst scid capacity
            htlc_min htlc_max base_fee prop_fee delay).2 layername).bind
          fun x => layer_find_local_channel x scid) =
          some ⟨src, dst, capacity, htlc_min, htlc_max, base_fee, prop_fee, delay⟩) ∧
    (find_layer st layername = none →
        (json_askrene_create_channel st layername src dst scid capacity htlc_min
            htlc_max base_fee prop_fee delay).1 = none ∧
        ((find_layer (json_askrene_create_channel st layername src dst scid capacity
            htlc_min htlc_max base_fee prop_fee delay).2 layername).bind
          fun x => layer_find_local_channel x scid) =
          some ⟨src, dst, capacity, htlc_min, htlc_max, base_fee, prop_fee, delay⟩) := by
  refine ⟨?_, ?_, ?_, ?_⟩
  · intro layer lc hfind hlc hcheck
    simp [json_askrene_create_channel, hfind, hlc, hcheck]
  · intro layer lc hfind hlc hcheck
    simp only [json_askrene_create_channel, hfind, hlc, hcheck, if_true]
    exact ⟨trivial, create_channel_lookup st layername layer (find_layer_name hfind)
      src dst scid capacity base_fee prop_fee delay htlc_min htlc_max⟩
  · intro layer hfind hlc
    simp only [json_askrene_create_channel, hfind, hlc]
    exact ⟨trivial, create_channel_lookup st layername layer (find_layer_name hfind)
      src dst scid capacity base_fee prop_fee delay htlc_min htlc_max⟩
  · intro hfind
    simp only [json_askrene_create_channel, hfind]
    exact ⟨trivial, create_channel_lookup st layername (empty_layer layername) rfl
      src dst scid capacity base_fee prop_fee delay htlc_min htlc_max⟩

/-- C8 witness: creating a channel in an absent layer of the empty state
stores exactly the requested local channel. -/
theorem claim_C8_witness :
    (json_askrene_create_channel st0 "L" 1 2 7 1000 1 500 0 10 6).1 = none ∧
    ((find_layer (json_askrene_create_channel st0 "L" 1 2 7 1000 1 500 0 10 6).2
        "L").bind fun x => layer_find_local_channel x 7) =
      some ⟨1, 2, 1000, 1, 500, 0, 10, 6⟩ :=
  (claim_C8 st0 "L" 1 2 7 1000 1 500 0 10 6).2.2.2 rfl


/-- C7: inform-channel rejects requests with neither or both of
minimum_msat/maximum_msat, leaving the state untouched; with exactly one, it
inserts or replaces only the constraint of that kind for (layer, scid, dir)
and leaves the constraint of the other kind for the same scidd exactly as it
was (none if the layer is created lazily). -/
theorem claim_C7 (st : AskreneState) (layername : String) (scid dir : Nat)
    (minimum maximum : Option Nat) (now : Nat) :
    ((minimum = none ∧ maximum = none) ∨ (minimum ≠ none ∧ maximum ≠ none) →
      json_askrene_inform_channel st layername scid dir minimum maximum now =
        (some "Must specify exactly one of maximum_msat/minimum_msat", st, none)) ∧
    (∀ m : Nat, minimum = some m → maximum = none →
      (json_askrene_inform_channel st layername scid dir minimum maximum now).1 = none ∧
      (json_askrene_inform_channel st layername scid dir minimum maximum now).2.2 =
        some ⟨m, now⟩ ∧
      layer_find_constraint
        ((find_layer (json_askrene_inform_channel st layername scid dir minimum
            maximum now).2.1 layername).getD (empty_layer layername))
        ⟨scid, dir⟩ .min = some ⟨m, now⟩ ∧
      layer_find_constraint
        ((find_layer (json_askrene_inform_channel st layername scid dir minimum
            maximum now).2.1 layername).getD (empty_layer layername))
        ⟨scid, dir⟩ .max =
        ((find_layer st layername).bind
          fun l => layer_find_constraint l ⟨scid, dir⟩ .max)) ∧
    (∀ M : Nat, minimum = none → maximum = some M →
      (json_askrene_inform_channel st layername scid dir minimum maximum now).1 = none ∧
      (json_askrene_inform_channel st layername scid dir minimum maximum now).2.2 =
        some ⟨M, now⟩ ∧
      layer_find_constraint
        ((find_layer (json_askrene_inform_channel st layername scid dir minimum
            maximum now).2.1 layername).getD (empty_layer layername))
        ⟨scid, dir⟩ .max = some ⟨M, now⟩ ∧
      layer_find_constraint
        ((find_layer (json_askrene_inform_channel st layername scid dir minimum
            maximum now).2.1 layername).getD (empty_layer layername))
        ⟨scid, dir⟩ .min =
        ((find_layer st layername).bind
          fun l => layer_find_constraint l ⟨scid, dir⟩ .min)) := by
  refine ⟨?_, ?_, ?_⟩
  · intro hbad
    rcases hbad with ⟨h1, h2⟩ | ⟨h1, h2⟩
    · subst h1
      subst h2
      rfl
    · obtain ⟨m, hm⟩ := Option.ne_none_iff_exists'.mp h1
      obtain ⟨M, hM⟩ := Option.ne_none_iff_exists'.mp h2
      subst hm
      subst hM
      rfl
  · intro m hm hM
    subst hm
    subst hM
    have hname : ({ (find_layer st layername).getD (empty_layer layername) with
        minCs := assoc_update ((find_layer st layername).getD
          (empty_layer layername)).minCs ⟨scid, dir⟩ ⟨m, now⟩ } : Layer).name =
        layername := getD_layer_name st layername
    have hfind := find_layer_upsert_self st
      { (find_layer st layername).getD (empty_layer layername) with
        minCs := assoc_update ((find_layer st layername).getD
          (empty_layer layername)).minCs ⟨scid, dir⟩ ⟨m, now⟩ }
    rw [hname] at hfind
    have hjson : json_askrene_inform_channel st layername scid dir (some m) none now =
        (none, upsert_layer st
          { (find_layer st layername).getD (empty_layer layername) with
            minCs := assoc_update ((find_layer st layername).getD
              (empty_layer layername)).minCs ⟨scid, dir⟩ ⟨m, now⟩ },
         some ⟨m, now⟩) := rfl
    rw [hjson]
    refine ⟨rfl, rfl, ?_, ?_⟩
    · rw [hfind]
      simp only [Option.getD_some, layer_find_constraint]
      exact assoc_find_update_self _ _ _
    · rw [hfind]
      simp only [Option.getD_some, layer_find_constraint]
      cases hf : find_layer st layername with
      | none => rfl
      | some l => rfl
  · intro M hm hM
    subst hm
    subst hM
    have hname : ({ (find_layer st layername).getD (empty_layer layername) with
        maxCs := assoc_update ((find_layer st layername).getD
          (empty_layer layername)).maxCs ⟨scid, dir⟩ ⟨M, now⟩ } : Layer).name =
        layername := getD_layer_name st layername
    have hfind := find_layer_upsert_self st
      { (find_layer st layername).getD (empty_layer layername) with
        maxCs := assoc_update ((find_layer st layername).getD
          (empty_layer layername)).maxCs ⟨scid, dir⟩ ⟨M, now⟩ }
    rw [hname] at hfind
    have hjson : json_askrene_inform_channel st layername scid dir none (some M) now =
        (none, upsert_layer st
          { (find_layer st layername).getD (empty_layer layername) with
            maxCs := assoc_update ((find_layer st layername).getD
              (empty_layer layername)).maxCs ⟨scid, dir⟩ ⟨M, now⟩ },
         some ⟨M, now⟩) := rfl
    rw [hjson]
    refine ⟨rfl, rfl, ?_, ?_⟩
    · rw [hfind]
      simp only [Option.getD_some, layer_find_constraint]
      exact assoc_find_update_self _ _ _
    · rw [hfind]
      simp only [Option.getD_some, layer_find_constraint]
      cases hf : find_layer st layername with
      | none => rfl
      | some l => rfl

/-- C7 witness: informing a minimum of 9 msat on (5, 0) in a fresh layer of
the empty state stores exactly that MIN constraint. -/
theorem claim_C7_witness :
    layer_find_constraint
      ((find_layer (json_askrene_inform_channel st0 "L" 5 0 (some 9) none 100).2.1
          "L").getD (empty_layer "L")) ⟨5, 0⟩ .min = some ⟨9, 100⟩ :=
  ((claim_C7 st0 "L" 5 0 (some 9) none 100).2.1 9 rfl rfl).2.2.1

end Askrene
